import Mathlib

/-!
Shallow embedding of the Zerust wire codec, connection layer and router
(`src/datapack.rs`, `src/connection.rs`, `src/error.rs`, `src/request.rs`,
`src/response.rs`, `src/router.rs`).

Bytes are modelled as `Nat` (values below 256 where well-formedness matters),
byte sequences as `List Nat`, and the 32-bit machine integers `u32` as `Nat`
with explicit `% 4294967296` where Rust truncates.
-/

namespace Zerust

/-- The little-endian 4-byte encoding of a 32-bit value, as written by
`byteorder`'s `write_u32::<LittleEndian>` (`DataPack::pack`). -/
def u32LEBytes (n : Nat) : List Nat :=
  [n % 256, n / 256 % 256, n / 65536 % 256, n / 16777216 % 256]

/-- The kind of an `std::io::Error`. Only `UnexpectedEof` (produced by a
`Cursor` read past the end of its slice) arises in the embedded code paths. -/
inductive IoErrorKind where
  | unexpectedEof
  | other
deriving DecidableEq, Repr

/-- `ZerustError` from `src/error.rs`: `IoError` (wrapping an `io::Error`,
`#[from]`-converted), `ConnectionClosed`, `InvalidHeader`, `ProtocolError`. -/
inductive ZerustError where
  | IoError (kind : IoErrorKind)
  | ConnectionClosed
  | InvalidHeader
  | ProtocolError (msg : String)
deriving DecidableEq, Repr

/-- `cursor.read_u32::<LittleEndian>()` on a cursor positioned at the head of
`bytes`: consumes 4 bytes and combines them little-endian; with fewer than 4
bytes available it fails with an `UnexpectedEof` I/O error, which the `?`
operator converts into `ZerustError::IoError`. Returns the value together
with the rest of the slice (the advanced cursor). -/
def readU32LE (bytes : List Nat) : Except ZerustError (Nat × List Nat) :=
  match bytes with
  | b0 :: b1 :: b2 :: b3 :: rest =>
      .ok (b0 + 256 * b1 + 65536 * b2 + 16777216 * b3, rest)
  | _ => .error (.IoError .unexpectedEof)

namespace DataPack

/-- `DataPack::unpack_header` (`src/datapack.rs` lines 30–37): reads `msg_id`
then `data_len` as little-endian `u32` from the slice via a `Cursor`. -/
def unpack_header (header : List Nat) : Except ZerustError (Nat × Nat) :=
  match readU32LE header with
  | .error e => .error e
  | .ok (msg_id, rest) =>
    match readU32LE rest with
    | .error e => .error e
    | .ok (data_len, _) => .ok (msg_id, data_len)

/-- `DataPack::pack` (`src/datapack.rs` lines 51–61): `msg_id` little-endian,
then `data.len() as u32` little-endian (the `as u32` cast truncates modulo
`2^32`), then the data bytes. `msg_id` is a `u32`, i.e. assumed `< 2^32`. -/
def pack (msg_id : Nat) (data : List Nat) : List Nat :=
  u32LEBytes msg_id ++ u32LEBytes (data.length % 4294967296) ++ data

end DataPack

/-- `Request` from `src/request.rs`: message id plus payload bytes. -/
structure Request where
  msg_id : Nat
  data : List Nat
deriving DecidableEq, Repr

/-- `Response` from `src/response.rs`: message id plus payload bytes. -/
structure Response where
  msg_id : Nat
  data : List Nat
deriving DecidableEq, Repr

/-- The bytes of the byte-string literal `b"Route not found"` (ASCII). -/
def routeNotFoundBytes : List Nat := "Route not found".data.map Char.toNat

/-- `Response::not_found` (`src/response.rs` lines 41–43). -/
def Response.not_found : Response := ⟨404, routeNotFoundBytes⟩

/-- `Handler` from `src/router.rs`: a boxed closure mapping a request to a
response. -/
def Handler := Request → Response

/-- `DefaultRouter` (`src/router.rs`): its `DashMap<u32, Handler>` is
modelled by its point-in-time contents, a partial map from message ids to
handlers. -/
structure DefaultRouter where
  routes : Nat → Option Handler

/-- `DefaultRouter::new`: empty routing table. -/
def DefaultRouter.new : DefaultRouter := ⟨fun _ => none⟩

/-- `DefaultRouter::add_route`: `DashMap::insert`, replacing any previous
handler for the id (last-writer-wins). -/
def DefaultRouter.add_route (r : DefaultRouter) (msg_id : Nat) (h : Handler) :
    DefaultRouter :=
  ⟨fun i => if i = msg_id then some h else r.routes i⟩

/-- `DefaultRouter::handle` (`src/router.rs` lines 116–121): look up the
request's id; call the registered handler, or answer `Response::not_found`. -/
def DefaultRouter.handle (r : DefaultRouter) (req : Request) : Response :=
  match r.routes req.msg_id with
  | some h => h req
  | none => Response.not_found

/-- A `Connection` (`src/connection.rs`): the TCP stream is modelled by the
schedule of chunks its successive `read` calls deliver (`transport`; the end
of the list is end-of-stream, after which a read returns 0 bytes), together
with the `pending_data` accumulator of bytes read but not yet consumed. -/
structure Connection where
  transport : List (List Nat)
  pending_data : List Nat
deriving DecidableEq, Repr

/-- `Connection::HEADER_SIZE`: msg_id(4) + data_len(4). -/
def HEADER_SIZE : Nat := 8

/-- All the bytes a connection can still deliver: the unconsumed buffered
bytes followed by everything the transport will deliver. -/
def Connection.avail (conn : Connection) : List Nat :=
  conn.pending_data ++ conn.transport.flatten

/-- Every chunk the transport delivers is non-empty (a live TCP read returns
zero bytes only at end-of-stream). -/
def Connection.chunksNE (conn : Connection) : Prop :=
  ∀ c ∈ conn.transport, c ≠ []

instance (conn : Connection) : Decidable conn.chunksNE := by
  unfold Connection.chunksNE; infer_instance

/-- `Connection::read_exact` (`src/connection.rs` lines 97–113): while fewer
than `size` bytes are buffered, perform one `stream.read` into a 1024-byte
buffer (delivering `min 1024` bytes of the next chunk, the surplus staying in
the stream); a zero-byte read fails with `ConnectionClosed`. Once `size`
bytes are buffered, drain exactly the first `size` bytes. Like the Rust
method (which mutates `&mut self`), it returns the updated connection state
alongside the result. -/
def Connection.read_exact (conn : Connection) (size : Nat) :
    Except ZerustError (List Nat) × Connection :=
  if conn.pending_data.length < size then
    match htr : conn.transport with
    | [] => (.error .ConnectionClosed, conn)
    | c :: rest =>
      if hc : c = [] then (.error .ConnectionClosed, ⟨rest, conn.pending_data⟩)
      else
        Connection.read_exact
          ⟨if c.length ≤ 1024 then rest else c.drop 1024 :: rest,
            conn.pending_data ++ c.take 1024⟩ size
  else
    (.ok (conn.pending_data.take size),
      ⟨conn.transport, conn.pending_data.drop size⟩)
termination_by (conn.transport.map List.length).sum
decreasing_by
  simp only [htr, List.map_cons, List.sum_cons]
  have hlen : 0 < c.length := List.length_pos.mpr hc
  split
  · omega
  · simp only [List.map_cons, List.sum_cons, List.length_drop]
    omega

/-- `Connection::read_request` (`src/connection.rs` lines 72–84): read the
8-byte header, decode it, then read the declared number of body bytes (none
when `data_len` is 0) and assemble the `Request`. -/
def Connection.read_request (conn : Connection) :
    Except ZerustError Request × Connection :=
  match conn.read_exact HEADER_SIZE with
  | (.error e, c1) => (.error e, c1)
  | (.ok header_bytes, c1) =>
    match DataPack.unpack_header header_bytes with
    | .error e => (.error e, c1)
    | .ok (msg_id, data_len) =>
      if data_len > 0 then
        match c1.read_exact data_len with
        | (.error e, c2) => (.error e, c2)
        | (.ok data, c2) => (.ok ⟨msg_id, data⟩, c2)
      else
        (.ok ⟨msg_id, []⟩, c1)

/-- The message id a byte sequence's first four bytes declare (little-endian
recombination, as the header decoder computes it). -/
def declaredId (bs : List Nat) : Nat :=
  match bs with
  | b0 :: b1 :: b2 :: b3 :: _ => b0 + 256 * b1 + 65536 * b2 + 16777216 * b3
  | _ => 0

/-- The body length a byte sequence's bytes 4..7 declare. -/
def declaredLen (bs : List Nat) : Nat := declaredId (bs.drop 4)

/-- The value a 4-byte little-endian sequence denotes (specification-side
reading of a serialized `u32`). -/
def leVal4 (bs : List Nat) : Nat :=
  match bs with
  | [b0, b1, b2, b3] => b0 + 256 * b1 + 65536 * b2 + 16777216 * b3
  | _ => 0

/-- A handler that echoes the request (used to instantiate dispatch). -/
def echoHandler : Handler := fun req => ⟨req.msg_id, req.data⟩

/-- A concrete router with the echo handler registered at id 7. -/
def demoRouter : DefaultRouter := DefaultRouter.new.add_route 7 echoHandler

/- ================================================================== -/
/- Theorems.                                                           -/
/- ================================================================== -/

theorem u32LE_decomp (n : Nat) :
    n % 256 + 256 * (n / 256 % 256) + 65536 * (n / 65536 % 256)
      + 16777216 * (n / 16777216 % 256) = n % 4294967296 := by
  omega

theorem u32LEBytes_length (n : Nat) : (u32LEBytes n).length = 4 := rfl

theorem u32LEBytes_lt (n : Nat) : ∀ b ∈ u32LEBytes n, b < 256 := by
  intro b hb
  simp [u32LEBytes] at hb
  rcases hb with h | h | h | h <;> omega

theorem readU32LE_u32LEBytes (n : Nat) (rest : List Nat) :
    readU32LE (u32LEBytes n ++ rest) = .ok (n % 4294967296, rest) := by
  simp [u32LEBytes, readU32LE]
  omega

theorem unpack_header_pack_prefix (a b : Nat) (rest : List Nat) :
    DataPack.unpack_header (u32LEBytes a ++ u32LEBytes b ++ rest)
      = .ok (a % 4294967296, b % 4294967296) := by
  simp [DataPack.unpack_header, List.append_assoc, readU32LE_u32LEBytes]

theorem pack_as_append (id : Nat) (payload : List Nat) :
    DataPack.pack id payload
      = u32LEBytes id ++ u32LEBytes (payload.length % 4294967296) ++ payload := rfl

theorem pack_length (id : Nat) (payload : List Nat) :
    (DataPack.pack id payload).length = 8 + payload.length := by
  simp [DataPack.pack, u32LEBytes]
  omega

theorem pack_take_8 (id : Nat) (payload : List Nat) :
    (DataPack.pack id payload).take 8
      = u32LEBytes id ++ u32LEBytes (payload.length % 4294967296) := by
  simp [DataPack.pack, u32LEBytes]

theorem pack_drop_8 (id : Nat) (payload : List Nat) :
    (DataPack.pack id payload).drop 8 = payload := by
  simp [DataPack.pack, u32LEBytes]

theorem read_exact_eof (conn : Connection) (size : Nat)
    (hlt : conn.pending_data.length < size) (htr : conn.transport = []) :
    conn.read_exact size = (.error .ConnectionClosed, conn) := by
  rw [Connection.read_exact.eq_def, if_pos hlt]
  split
  · rfl
  · rename_i c rest h
    rw [htr] at h
    exact absurd h (List.noConfusion)

theorem read_exact_empty_chunk (conn : Connection) (size : Nat)
    (rest : List (List Nat)) (hlt : conn.pending_data.length < size)
    (htr : conn.transport = [] :: rest) :
    conn.read_exact size = (.error .ConnectionClosed, ⟨rest, conn.pending_data⟩) := by
  rw [Connection.read_exact.eq_def, if_pos hlt]
  split
  · rename_i h
    rw [htr] at h
    exact absurd h (List.noConfusion)
  · rename_i c rest' h
    rw [htr] at h
    obtain ⟨rfl, rfl⟩ : c = [] ∧ rest' = rest := by
      refine ⟨?_, ?_⟩ <;> · injection h with h1 h2; simp [h1, h2]
    rw [dif_pos rfl]

theorem read_exact_step (conn : Connection) (size : Nat) (c : List Nat)
    (rest : List (List Nat)) (hlt : conn.pending_data.length < size)
    (htr : conn.transport = c :: rest) (hc : c ≠ []) :
    conn.read_exact size
      = Connection.read_exact
          ⟨if c.length ≤ 1024 then rest else c.drop 1024 :: rest,
            conn.pending_data ++ c.take 1024⟩ size := by
  rw [Connection.read_exact.eq_def, if_pos hlt]
  split
  · rename_i h
    rw [htr] at h
    exact absurd h (List.noConfusion)
  · rename_i c' rest' h
    rw [htr] at h
    obtain ⟨rfl, rfl⟩ : c' = c ∧ rest' = rest := by
      refine ⟨?_, ?_⟩ <;> · injection h with h1 h2; simp [h1, h2]
    rw [dif_neg hc]

theorem read_exact_done (conn : Connection) (size : Nat)
    (hge : size ≤ conn.pending_data.length) :
    conn.read_exact size
      = (.ok (conn.pending_data.take size),
          ⟨conn.transport, conn.pending_data.drop size⟩) := by
  rw [Connection.read_exact.eq_def, if_neg (by omega)]

/-- Pulling one chunk from the transport into the pending buffer does not
change the bytes the connection can still deliver. -/
theorem refill_avail (conn : Connection) (c : List Nat) (rest : List (List Nat))
    (htr : conn.transport = c :: rest) :
    (Connection.avail ⟨if c.length ≤ 1024 then rest else c.drop 1024 :: rest,
        conn.pending_data ++ c.take 1024⟩) = conn.avail := by
  simp only [Connection.avail, htr, List.flatten_cons]
  split
  · rename_i hle
    rw [List.take_of_length_le hle, List.append_assoc]
  · simp only [List.flatten_cons, List.append_assoc]
    rw [← List.append_assoc (c.take 1024), List.take_append_drop]

/-- Pulling one chunk from the transport preserves non-emptiness of the
remaining chunks. -/
theorem refill_chunksNE (conn : Connection) (c : List Nat)
    (rest : List (List Nat)) (htr : conn.transport = c :: rest)
    (hne : conn.chunksNE) :
    Connection.chunksNE ⟨if c.length ≤ 1024 then rest else c.drop 1024 :: rest,
      conn.pending_data ++ c.take 1024⟩ := by
  intro x hx
  simp only at hx
  split at hx
  · exact hne x (by rw [htr]; exact List.mem_cons_of_mem _ hx)
  · rename_i hgt
    rcases List.mem_cons.mp hx with rfl | hx
    · have : (c.drop 1024).length = c.length - 1024 := List.length_drop ..
      intro hnil
      rw [hnil] at this
      simp at this
      omega
    · exact hne x (by rw [htr]; exact List.mem_cons_of_mem _ hx)

/-- Behaviour of `read_exact` in terms of the deliverable byte sequence: when
at least `size` bytes can ever be delivered, it succeeds with exactly the
first `size` of them and leaves exactly the rest deliverable; when fewer can
be delivered, it fails with `ConnectionClosed` without losing any byte. -/
theorem read_exact_spec (conn : Connection) (size : Nat) :
    conn.chunksNE →
      (size ≤ conn.avail.length →
        ∃ c', conn.read_exact size = (.ok (conn.avail.take size), c')
          ∧ c'.avail = conn.avail.drop size ∧ c'.chunksNE)
      ∧ (conn.avail.length < size →
        ∃ c', conn.read_exact size = (.error .ConnectionClosed, c')
          ∧ c'.avail = conn.avail) := by
  induction conn, size using Connection.read_exact.induct with
  | case1 conn size hlt htr =>
    intro hne
    have havail : conn.avail = conn.pending_data := by
      simp [Connection.avail, htr]
    constructor
    · intro hsz
      rw [havail] at hsz
      omega
    · intro _
      exact ⟨conn, read_exact_eof conn size hlt htr, rfl⟩
  | case2 conn size hlt rest htr =>
    intro hne
    exact absurd rfl (hne [] (by rw [htr]; exact List.mem_cons_self _ _))
  | case3 conn size hlt c rest htr hc ih =>
    intro hne
    simp only [dite_eq_ite] at ih
    have hstep := read_exact_step conn size c rest hlt htr hc
    have havail := refill_avail conn c rest htr
    have hne' := refill_chunksNE conn c rest htr hne
    refine ⟨?_, ?_⟩
    · intro hsz
      obtain ⟨c', heq, h1, h2⟩ := (ih hne').1 (by rw [havail]; exact hsz)
      exact ⟨c', by rw [hstep, heq, havail], by rw [h1, havail], h2⟩
    · intro hsz
      obtain ⟨c', heq, h1⟩ := (ih hne').2 (by rw [havail]; exact hsz)
      exact ⟨c', by rw [hstep, heq], by rw [h1, havail]⟩
  | case4 conn size hge =>
    intro hne
    have hge' : size ≤ conn.pending_data.length := by omega
    refine ⟨?_, ?_⟩
    · intro hsz
      refine ⟨⟨conn.transport, conn.pending_data.drop size⟩, ?_, ?_, ?_⟩
      · rw [read_exact_done conn size hge']
        have : conn.avail.take size = conn.pending_data.take size := by
          simp only [Connection.avail]
          exact List.take_append_of_le_length hge'
        rw [this]
      · simp only [Connection.avail]
        exact (List.drop_append_of_le_length hge').symm
      · exact fun x hx => hne x hx
    · intro hsz
      exfalso
      have : conn.avail.length
          = conn.pending_data.length + conn.transport.flatten.length := by
        simp [Connection.avail]
      omega

theorem unpack_header_pack8 (a b : Nat) :
    DataPack.unpack_header (u32LEBytes a ++ u32LEBytes b)
      = .ok (a % 4294967296, b % 4294967296) := by
  have h := unpack_header_pack_prefix a b []
  simpa using h

/-- Behaviour of `read_request` when the deliverable bytes start with a
complete packed message: the message is returned intact and exactly its
`8 + payload.length` bytes are consumed. -/
theorem read_request_ok (conn : Connection) (id : Nat)
    (payload extra : List Nat) (hne : conn.chunksNE)
    (hid : id < 4294967296) (hlen : payload.length < 4294967296)
    (hav : conn.avail = DataPack.pack id payload ++ extra) :
    ∃ c', conn.read_request = (.ok ⟨id, payload⟩, c')
      ∧ c'.avail = extra ∧ c'.chunksNE := by
  have hplen := pack_length id payload
  have h8 : 8 ≤ conn.avail.length := by
    rw [hav, List.length_append, hplen]
    omega
  obtain ⟨c1, h1eq, h1avail, h1ne⟩ := (read_exact_spec conn 8 hne).1 h8
  have htake : conn.avail.take 8 = u32LEBytes id ++ u32LEBytes payload.length := by
    rw [hav, List.take_append_of_le_length (by rw [hplen]; omega), pack_take_8,
      Nat.mod_eq_of_lt hlen]
  have hdrok : DataPack.unpack_header (conn.avail.take 8)
      = .ok (id, payload.length) := by
    rw [htake, unpack_header_pack8, Nat.mod_eq_of_lt hid, Nat.mod_eq_of_lt hlen]
  have h1avail' : c1.avail = payload ++ extra := by
    rw [h1avail, hav, List.drop_append_of_le_length (by rw [hplen]; omega),
      pack_drop_8]
  by_cases hpos : payload.length > 0
  · obtain ⟨c2, h2eq, h2avail, h2ne⟩ :=
      (read_exact_spec c1 payload.length h1ne).1
        (by rw [h1avail', List.length_append]; omega)
    have hbody : c1.avail.take payload.length = payload := by
      rw [h1avail', List.take_append_of_le_length le_rfl, List.take_length]
    have h2avail' : c2.avail = extra := by
      rw [h2avail, h1avail', List.drop_append_of_le_length le_rfl,
        List.drop_length, List.nil_append]
    refine ⟨c2, ?_, h2avail', h2ne⟩
    simp only [Connection.read_request, HEADER_SIZE, h1eq, hdrok]
    rw [if_pos hpos]
    simp only [h2eq, hbody]
  · have hp0 : payload.length = 0 := by omega
    have hplnil : payload = [] := List.length_eq_zero.mp hp0
    refine ⟨c1, ?_, by rw [h1avail', hplnil, List.nil_append], h1ne⟩
    simp only [Connection.read_request, HEADER_SIZE, h1eq, hdrok]
    rw [if_neg (by omega), hplnil]

/-- On any input of at least 8 bytes, `unpack_header` succeeds with the
declared id and length, and only the first 8 bytes matter. -/
theorem unpack_header_ge8 (bs : List Nat) (h : 8 ≤ bs.length) :
    DataPack.unpack_header bs = .ok (declaredId bs, declaredLen bs)
      ∧ DataPack.unpack_header (bs.take 8)
          = .ok (declaredId bs, declaredLen bs) := by
  rcases bs with _ | ⟨b0, _ | ⟨b1, _ | ⟨b2, _ | ⟨b3, _ | ⟨b4, _ | ⟨b5, _ |
    ⟨b6, _ | ⟨b7, rest⟩⟩⟩⟩⟩⟩⟩⟩ <;>
    simp_all [DataPack.unpack_header, readU32LE, declaredId, declaredLen]

/-- On any input of fewer than 8 bytes, `unpack_header` fails with the
`IoError` produced by the cursor's `UnexpectedEof`. -/
theorem unpack_header_lt8 (bs : List Nat) (h : bs.length < 8) :
    DataPack.unpack_header bs = .error (.IoError .unexpectedEof) := by
  rcases bs with _ | ⟨b0, _ | ⟨b1, _ | ⟨b2, _ | ⟨b3, _ | ⟨b4, _ | ⟨b5, _ |
    ⟨b6, _ | ⟨b7, rest⟩⟩⟩⟩⟩⟩⟩⟩ <;>
    first
    | (exfalso; simp only [List.length_cons] at h; omega)
    | simp_all [DataPack.unpack_header, readU32LE]

/-- When the transport delivers non-empty chunks but fewer bytes than the
message the header declares, `read_request` fails with `ConnectionClosed`. -/
theorem read_request_closed (conn : Connection) (hne : conn.chunksNE)
    (h : conn.avail.length < 8 + declaredLen conn.avail) :
    (conn.read_request).1 = .error .ConnectionClosed := by
  by_cases h8 : conn.avail.length < 8
  · obtain ⟨c1, h1eq, _⟩ := (read_exact_spec conn 8 hne).2 h8
    simp [Connection.read_request, HEADER_SIZE, h1eq]
  · push_neg at h8
    obtain ⟨c1, h1eq, h1avail, h1ne⟩ := (read_exact_spec conn 8 hne).1 h8
    have hdrok := (unpack_header_ge8 conn.avail h8).2
    have hpos : 0 < declaredLen conn.avail := by omega
    obtain ⟨c2, h2eq, _⟩ :=
      (read_exact_spec c1 (declaredLen conn.avail) h1ne).2
        (by rw [h1avail, List.length_drop]; omega)
    simp only [Connection.read_request, HEADER_SIZE, h1eq, hdrok]
    rw [if_pos hpos]
    simp [h2eq]

/- ================================================================== -/
/- Claims.                                                             -/
/- ================================================================== -/

/-- C1: Codec round-trip — for every `u32` id and every payload of length
below `2^32`, decoding the output of `DataPack::pack(id, payload)` (applying
`unpack_header` to its first 8 bytes and taking the remaining bytes as the
body) yields exactly `(id, payload.length)` and the original payload. -/
theorem C1_codec_round_trip (id : Nat) (payload : List Nat)
    (hid : id < 4294967296) (hlen : payload.length < 4294967296) :
    DataPack.unpack_header ((DataPack.pack id payload).take 8)
        = .ok (id, payload.length)
      ∧ (DataPack.pack id payload).drop 8 = payload := by
  constructor
  · rw [pack_take_8, Nat.mod_eq_of_lt hlen, unpack_header_pack8,
      Nat.mod_eq_of_lt hid, Nat.mod_eq_of_lt hlen]
  · exact pack_drop_8 id payload

theorem C1_codec_round_trip_witness :
    (3 : Nat) < 4294967296 ∧ ([7, 8] : List Nat).length < 4294967296
      ∧ (DataPack.unpack_header ((DataPack.pack 3 [7, 8]).take 8)
            = .ok (3, ([7, 8] : List Nat).length)
          ∧ (DataPack.pack 3 [7, 8]).drop 8 = [7, 8]) :=
  ⟨by decide, by decide, C1_codec_round_trip 3 [7, 8] (by decide) (by decide)⟩

/-- C2: Wire format is byte-exact little-endian — `pack(id, payload)` is the
4 little-endian bytes of `id`, then the 4 little-endian bytes of
`payload.length` (as `u32`), then the payload; it always succeeds and the
total length is exactly `8 + payload.length`. -/
theorem C2_pack_wire_format (id : Nat) (payload : List Nat)
    (hid : id < 4294967296) (hlen : payload.length < 4294967296) :
    ∃ idB lenB, DataPack.pack id payload = idB ++ lenB ++ payload
      ∧ idB.length = 4 ∧ lenB.length = 4
      ∧ (∀ b ∈ idB ++ lenB, b < 256)
      ∧ leVal4 idB = id ∧ leVal4 lenB = payload.length
      ∧ (DataPack.pack id payload).length = 8 + payload.length := by
  refine ⟨u32LEBytes id, u32LEBytes payload.length, ?_, rfl, rfl, ?_, ?_, ?_,
    pack_length id payload⟩
  · rw [pack_as_append, Nat.mod_eq_of_lt hlen]
  · intro b hb
    rcases List.mem_append.mp hb with h | h
    · exact u32LEBytes_lt _ _ h
    · exact u32LEBytes_lt _ _ h
  · simp only [leVal4, u32LEBytes]
    omega
  · simp only [leVal4, u32LEBytes]
    omega

theorem C2_pack_wire_format_witness :
    (1 : Nat) < 4294967296 ∧ ([9] : List Nat).length < 4294967296
      ∧ ∃ idB lenB, DataPack.pack 1 [9] = idB ++ lenB ++ [9]
          ∧ idB.length = 4 ∧ lenB.length = 4
          ∧ (∀ b ∈ idB ++ lenB, b < 256)
          ∧ leVal4 idB = 1 ∧ leVal4 lenB = ([9] : List Nat).length
          ∧ (DataPack.pack 1 [9]).length = 8 + ([9] : List Nat).length :=
  ⟨by decide, by decide, C2_pack_wire_format 1 [9] (by decide) (by decide)⟩

/-- C3: Partial-delivery reconstruction — however `pack(id, payload)` is
partitioned into non-empty chunks by the transport, one `read_request` on a
fresh connection reconstructs exactly `(id, payload)` (and consumes all
delivered bytes). -/
theorem C3_partial_delivery (id : Nat) (payload : List Nat)
    (chunks : List (List Nat)) (hid : id < 4294967296)
    (hlen : payload.length < 4294967296)
    (hch : ∀ c ∈ chunks, c ≠ [])
    (hdeliver : chunks.flatten = DataPack.pack id payload) :
    ∃ c', Connection.read_request ⟨chunks, []⟩ = (.ok ⟨id, payload⟩, c')
      ∧ c'.avail = [] := by
  obtain ⟨c', heq, havail, _⟩ :=
    read_request_ok ⟨chunks, []⟩ id payload [] (fun c hc => hch c hc) hid hlen
      (by simp [Connection.avail, hdeliver])
  exact ⟨c', heq, havail⟩

theorem C3_partial_delivery_witness :
    (1 : Nat) < 4294967296 ∧ ([2] : List Nat).length < 4294967296
      ∧ (∀ c ∈ ([[1], [0], [0], [0], [1, 0], [0, 0], [2]] : List (List Nat)),
          c ≠ [])
      ∧ ([[1], [0], [0], [0], [1, 0], [0, 0], [2]] : List (List Nat)).flatten
          = DataPack.pack 1 [2]
      ∧ ∃ c', Connection.read_request
            ⟨[[1], [0], [0], [0], [1, 0], [0, 0], [2]], []⟩
            = (.ok ⟨1, [2]⟩, c') ∧ c'.avail = [] :=
  ⟨by decide, by decide, by decide, by decide,
    C3_partial_delivery 1 [2] [[1], [0], [0], [0], [1, 0], [0, 0], [2]]
      (by decide) (by decide) (by decide) (by decide)⟩

/-- C4: Pending-buffer carryover — when the transport delivers two packed
messages concatenated in a single underlying read, two sequential
`read_request` calls return the two messages in order, with no byte lost or
duplicated (afterwards no byte remains deliverable). -/
theorem C4_pending_carryover (id1 id2 : Nat) (p1 p2 : List Nat)
    (hid1 : id1 < 4294967296) (hid2 : id2 < 4294967296)
    (hl1 : p1.length < 4294967296) (hl2 : p2.length < 4294967296) :
    ∃ c' c'',
      Connection.read_request
          ⟨[DataPack.pack id1 p1 ++ DataPack.pack id2 p2], []⟩
        = (.ok ⟨id1, p1⟩, c')
      ∧ c'.read_request = (.ok ⟨id2, p2⟩, c'')
      ∧ c''.avail = [] := by
  have hne : Connection.chunksNE
      ⟨[DataPack.pack id1 p1 ++ DataPack.pack id2 p2], []⟩ := by
    intro c hc
    rw [List.mem_singleton] at hc
    subst hc
    intro hnil
    have hlen := congrArg List.length hnil
    rw [List.length_append, pack_length] at hlen
    simp at hlen
  obtain ⟨c', h1, ha1, hne1⟩ :=
    read_request_ok _ id1 p1 (DataPack.pack id2 p2) hne hid1 hl1
      (by simp [Connection.avail])
  obtain ⟨c'', h2, ha2, _⟩ :=
    read_request_ok c' id2 p2 [] hne1 hid2 hl2
      (by rw [ha1, List.append_nil])
  exact ⟨c', c'', h1, h2, ha2⟩

theorem C4_pending_carryover_witness :
    (1 : Nat) < 4294967296 ∧ (2 : Nat) < 4294967296
      ∧ ([9] : List Nat).length < 4294967296
      ∧ ([] : List Nat).length < 4294967296
      ∧ ∃ c' c'',
          Connection.read_request
              ⟨[DataPack.pack 1 [9] ++ DataPack.pack 2 []], []⟩
            = (.ok ⟨1, [9]⟩, c')
          ∧ c'.read_request = (.ok ⟨2, []⟩, c'')
          ∧ c''.avail = [] :=
  ⟨by decide, by decide, by decide, by decide,
    C4_pending_carryover 1 2 [9] [] (by decide) (by decide) (by decide)
      (by decide)⟩

/-- C5: Dispatch correctness — for every routing-table state and request,
`DefaultRouter::handle` returns the registered handler's response when one
is registered for the request's id, and the reserved not-found response
(id 404, payload the bytes of "Route not found") when none is; being a total
function into `Response`, it never returns an error. -/
theorem C5_dispatch_correct (r : DefaultRouter) (req : Request) :
    (∀ h : Handler, r.routes req.msg_id = some h →
        r.handle req = h req)
      ∧ (r.routes req.msg_id = none → r.handle req = Response.not_found)
      ∧ Response.not_found.msg_id = 404
      ∧ Response.not_found.data = "Route not found".data.map Char.toNat := by
  refine ⟨?_, ?_, rfl, rfl⟩
  · intro h hh
    simp [DefaultRouter.handle, hh]
  · intro hn
    simp [DefaultRouter.handle, hn]

theorem C5_dispatch_correct_witness :
    demoRouter.routes 7 = some echoHandler
      ∧ DefaultRouter.handle demoRouter ⟨7, [1]⟩ = echoHandler ⟨7, [1]⟩
      ∧ demoRouter.routes 999 = none
      ∧ DefaultRouter.handle demoRouter ⟨999, []⟩ = Response.not_found :=
  ⟨rfl,
    (C5_dispatch_correct demoRouter ⟨7, [1]⟩).1 echoHandler rfl,
    rfl,
    (C5_dispatch_correct demoRouter ⟨999, []⟩).2.1 rfl⟩

/-- C6 counterexample: on fewer than 8 bytes, `unpack_header`'s error is the
`IoError` that the `?` operator builds from the cursor's `UnexpectedEof` —
not `ZerustError::InvalidHeader`, which nothing in the code constructs. -/
theorem C6_short_header_error_kind :
    DataPack.unpack_header [] = .error (.IoError .unexpectedEof)
      ∧ DataPack.unpack_header [] ≠ .error .InvalidHeader := by
  refine ⟨rfl, ?_⟩
  intro h
  rw [show DataPack.unpack_header [] = .error (.IoError .unexpectedEof) from rfl]
    at h
  injection h with h1
  exact ZerustError.noConfusion h1

/-- C6 (amended): `unpack_header` on exactly 8 bytes succeeds for every
input, covering every `(id, len)` pair representable in 32 bits; on fewer
than 8 bytes it fails with `ZerustError::IoError` (wrapping the cursor's
`UnexpectedEof`), not with `InvalidHeader`. -/
theorem C6_header_boundary_amended :
    (∀ bs : List Nat, bs.length = 8 →
        DataPack.unpack_header bs = .ok (declaredId bs, declaredLen bs))
      ∧ (∀ id len : Nat, id < 4294967296 → len < 4294967296 →
          (u32LEBytes id ++ u32LEBytes len).length = 8
            ∧ DataPack.unpack_header (u32LEBytes id ++ u32LEBytes len)
                = .ok (id, len))
      ∧ (∀ bs : List Nat, bs.length < 8 →
          DataPack.unpack_header bs = .error (.IoError .unexpectedEof)) := by
  refine ⟨?_, ?_, unpack_header_lt8⟩
  · intro bs h
    exact (unpack_header_ge8 bs (by omega)).1
  · intro id len hid hlen
    refine ⟨by simp [u32LEBytes], ?_⟩
    rw [unpack_header_pack8, Nat.mod_eq_of_lt hid, Nat.mod_eq_of_lt hlen]

theorem C6_header_boundary_amended_witness :
    DataPack.unpack_header (u32LEBytes 1 ++ u32LEBytes 2) = .ok (1, 2)
      ∧ DataPack.unpack_header [1, 0] = .error (.IoError .unexpectedEof) :=
  ⟨(C6_header_boundary_amended.2.1 1 2 (by decide) (by decide)).2,
    C6_header_boundary_amended.2.2 [1, 0] (by decide)⟩

/-- C7: Connection-closed detection — when the transport (delivering
non-empty chunks) can never supply the full message the header declares (or
not even the header), `read_request` fails with `ZerustError::ConnectionClosed`,
a variant distinct from every decode-failure error. -/
theorem C7_connection_closed (conn : Connection) (hne : conn.chunksNE)
    (h : conn.avail.length < 8 + declaredLen conn.avail) :
    (conn.read_request).1 = .error .ConnectionClosed
      ∧ (∀ k, ZerustError.ConnectionClosed ≠ .IoError k)
      ∧ ZerustError.ConnectionClosed ≠ .InvalidHeader
      ∧ (∀ s, ZerustError.ConnectionClosed ≠ .ProtocolError s) := by
  refine ⟨read_request_closed conn hne h, ?_, ?_, ?_⟩
  · intro k hk
    exact ZerustError.noConfusion hk
  · intro hk
    exact ZerustError.noConfusion hk
  · intro s hk
    exact ZerustError.noConfusion hk

theorem C7_connection_closed_witness :
    Connection.chunksNE ⟨[[1, 0, 0]], []⟩
      ∧ (Connection.avail ⟨[[1, 0, 0]], []⟩).length
          < 8 + declaredLen (Connection.avail ⟨[[1, 0, 0]], []⟩)
      ∧ ((Connection.read_request ⟨[[1, 0, 0]], []⟩).1
            = .error .ConnectionClosed
          ∧ (∀ k, ZerustError.ConnectionClosed ≠ .IoError k)
          ∧ ZerustError.ConnectionClosed ≠ .InvalidHeader
          ∧ (∀ s, ZerustError.ConnectionClosed ≠ .ProtocolError s)) :=
  ⟨by decide, by decide,
    C7_connection_closed ⟨[[1, 0, 0]], []⟩ (by decide) (by decide)⟩

/-- C8 counterexample: the transport delivers, in one read, an 8-byte header
declaring a 5-byte body followed by only 2 body bytes, then end-of-stream.
The full message (13 bytes) can never be assembled, yet `read_request`
consumes the 8 header bytes from the front of the pending buffer (10
deliverable bytes before the call, 2 after), refuting the claim that bytes
are consumed only after a full message can be assembled. -/
theorem C8_header_consumed_on_partial :
    Connection.read_request ⟨[[5, 0, 0, 0, 5, 0, 0, 0, 1, 2]], []⟩
        = (.error .ConnectionClosed, ⟨[], [1, 2]⟩)
      ∧ (Connection.avail ⟨[[5, 0, 0, 0, 5, 0, 0, 0, 1, 2]], []⟩).length = 10
      ∧ (Connection.avail ⟨[], [1, 2]⟩).length = 2 := by
  refine ⟨?_, by decide, by decide⟩
  simp [Connection.read_request, Connection.read_exact,
    DataPack.unpack_header, readU32LE, HEADER_SIZE]

/-- C8 (amended): bytes are consumed from the front of the pending buffer
only in whole `read_exact` units — a `read_exact` that can be satisfied
drains exactly the requested `size` leading bytes, one that cannot be
satisfied consumes nothing, and a `read_request` that cannot even complete
the 8-byte header consumes nothing; however a `read_request` that fails
while reading the body has already consumed the header's 8 bytes (shown by
the counterexample). -/
theorem C8_consumption_amended (conn : Connection) (size : Nat)
    (hne : conn.chunksNE) :
    (size ≤ conn.avail.length →
      ∃ c', conn.read_exact size = (.ok (conn.avail.take size), c')
        ∧ c'.avail = conn.avail.drop size)
      ∧ (conn.avail.length < size →
        ∃ c', conn.read_exact size = (.error .ConnectionClosed, c')
          ∧ c'.avail = conn.avail)
      ∧ (conn.avail.length < 8 →
        ∃ c', conn.read_request = (.error .ConnectionClosed, c')
          ∧ c'.avail = conn.avail) := by
  refine ⟨?_, (read_exact_spec conn size hne).2, ?_⟩
  · intro hsz
    obtain ⟨c', heq, h1, _⟩ := (read_exact_spec conn size hne).1 hsz
    exact ⟨c', heq, h1⟩
  · intro h8
    obtain ⟨c1, h1eq, h1avail⟩ := (read_exact_spec conn 8 hne).2 h8
    refine ⟨c1, ?_, h1avail⟩
    simp [Connection.read_request, HEADER_SIZE, h1eq]

theorem C8_consumption_amended_witness :
    Connection.chunksNE ⟨[[1, 2, 3]], []⟩
      ∧ ((2 ≤ (Connection.avail ⟨[[1, 2, 3]], []⟩).length →
          ∃ c', Connection.read_exact ⟨[[1, 2, 3]], []⟩ 2
              = (.ok ((Connection.avail ⟨[[1, 2, 3]], []⟩).take 2), c')
            ∧ c'.avail = (Connection.avail ⟨[[1, 2, 3]], []⟩).drop 2)
        ∧ ((Connection.avail ⟨[[1, 2, 3]], []⟩).length < 2 →
          ∃ c', Connection.read_exact ⟨[[1, 2, 3]], []⟩ 2
              = (.error .ConnectionClosed, c')
            ∧ c'.avail = Connection.avail ⟨[[1, 2, 3]], []⟩)
        ∧ ((Connection.avail ⟨[[1, 2, 3]], []⟩).length < 8 →
          ∃ c', Connection.read_request ⟨[[1, 2, 3]], []⟩
              = (.error .ConnectionClosed, c')
            ∧ c'.avail = Connection.avail ⟨[[1, 2, 3]], []⟩)) :=
  ⟨by decide, C8_consumption_amended ⟨[[1, 2, 3]], []⟩ 2 (by decide)⟩

/-- C9: Header decode tolerates surplus bytes — on any input of at least 8
bytes `unpack_header` succeeds, returning the id and length decoded from the
first 8 bytes only; its result equals its result on just those 8 bytes. -/
theorem C9_header_surplus (bs : List Nat) (h : 8 ≤ bs.length) :
    DataPack.unpack_header bs = .ok (declaredId bs, declaredLen bs)
      ∧ DataPack.unpack_header bs = DataPack.unpack_header (bs.take 8) := by
  obtain ⟨h1, h2⟩ := unpack_header_ge8 bs h
  exact ⟨h1, by rw [h1, h2]⟩

theorem C9_header_surplus_witness :
    8 ≤ ([1, 0, 0, 0, 2, 0, 0, 0, 9, 9] : List Nat).length
      ∧ (DataPack.unpack_header [1, 0, 0, 0, 2, 0, 0, 0, 9, 9]
            = .ok (declaredId [1, 0, 0, 0, 2, 0, 0, 0, 9, 9],
                declaredLen [1, 0, 0, 0, 2, 0, 0, 0, 9, 9])
          ∧ DataPack.unpack_header [1, 0, 0, 0, 2, 0, 0, 0, 9, 9]
            = DataPack.unpack_header
                (([1, 0, 0, 0, 2, 0, 0, 0, 9, 9] : List Nat).take 8)) :=
  ⟨by decide, C9_header_surplus [1, 0, 0, 0, 2, 0, 0, 0, 9, 9] (by decide)⟩

/-- C10: Length-field truncation — `pack` succeeds for every payload,
writing `payload.length % 2^32` as the length field while appending all
payload bytes; for payloads of length at least `2^32` the declared length
therefore differs from the actual body length. -/
theorem C10_length_truncation (id : Nat) (payload : List Nat)
    (hid : id < 4294967296) :
    DataPack.unpack_header ((DataPack.pack id payload).take 8)
        = .ok (id, payload.length % 4294967296)
      ∧ (DataPack.pack id payload).drop 8 = payload
      ∧ (DataPack.pack id payload).length = 8 + payload.length
      ∧ (4294967296 ≤ payload.length →
          payload.length % 4294967296 ≠ payload.length) := by
  refine ⟨?_, pack_drop_8 id payload, pack_length id payload, ?_⟩
  · rw [pack_take_8, unpack_header_pack8, Nat.mod_eq_of_lt hid]
    have h2 : payload.length % 4294967296 % 4294967296
        = payload.length % 4294967296 := by omega
    rw [h2]
  · intro hge
    have hlt : payload.length % 4294967296 < 4294967296 :=
      Nat.mod_lt _ (by omega)
    omega

theorem C10_length_truncation_witness :
    (0 : Nat) < 4294967296
      ∧ (DataPack.unpack_header ((DataPack.pack 0 [1]).take 8)
            = .ok (0, ([1] : List Nat).length % 4294967296)
          ∧ (DataPack.pack 0 [1]).drop 8 = [1]
          ∧ (DataPack.pack 0 [1]).length = 8 + ([1] : List Nat).length
          ∧ (4294967296 ≤ ([1] : List Nat).length →
              ([1] : List Nat).length % 4294967296
                ≠ ([1] : List Nat).length)) :=
  ⟨by decide, C10_length_truncation 0 [1] (by decide)⟩

end Zerust

